import Mathlib

/-!
Shallow embedding of the `color-backtrace` crate (src/lib.rs) in Lean 4,
together with theorems settling the specification claims about frame
classification, filtering, rendering, and verbosity handling.

Conventions of the embedding:
* Rust `Option<T>` becomes `Option`, `usize`/`u32` become `Nat` (no overflow is
  relevant to any modelled computation), `PathBuf` (always consumed through
  `to_string_lossy`) becomes `String`.
* Fallible rendering paths become `Except String`; file I/O is abstracted as a
  `SourceFile` value describing what opening the file yielded.
* Environment variables are passed explicitly as `Option String` parameters:
  the Rust code reads them with `env::var(..).ok()` at the modelled call sites.
* Color handling (`termcolor`) is an external collaborator; `set_color`/`reset`
  calls are not part of the modelled output. Output is modelled as the sequence
  of semantically distinct items written between them.
-/

namespace ColorBacktrace

/-- `Verbosity` enum from lib.rs: `Minimal < Medium < Full` (the Rust side
derives `PartialOrd`/`Ord`, which orders by declaration order). -/
inductive Verbosity
  | Minimal
  | Medium
  | Full
deriving DecidableEq, Repr

/-- Numeric value of the derived ordering on `Verbosity`
(declaration order, as Rust's `derive(PartialOrd, Ord)` produces). -/
def Verbosity.toNat : Verbosity → Nat
  | .Minimal => 0
  | .Medium => 1
  | .Full => 2

/-- `Verbosity::convert_env` from lib.rs: `Some("full")` maps to `Full`, any
other set value to `Medium`, unset to `Minimal`. -/
def convert_env : Option String → Verbosity
  | some x => if x = "full" then Verbosity.Full else Verbosity.Medium
  | none => Verbosity.Minimal

/-- `Verbosity::from_env` from lib.rs, with the value of the `RUST_BACKTRACE`
environment variable passed explicitly. -/
def Verbosity.from_env (rust_backtrace : Option String) : Verbosity :=
  convert_env rust_backtrace

/-- `Verbosity::lib_from_env` from lib.rs: reads `RUST_LIB_BACKTRACE`, falling
back to `RUST_BACKTRACE` when the former is unset. Both variable values are
passed explicitly. -/
def Verbosity.lib_from_env (rust_lib_backtrace rust_backtrace : Option String) : Verbosity :=
  convert_env (rust_lib_backtrace.orElse fun _ => rust_backtrace)

/-- `Frame` struct from lib.rs. `n` is the original 1-based sequence number
assigned at capture time; `filename` is the path as a (lossy) string. -/
structure Frame where
  n : Nat
  name : Option String
  lineno : Option Nat
  filename : Option String
  ip : Nat
deriving DecidableEq, Repr

/-- The `SYM_PREFIXES` list of `Frame::is_post_panic_code` in lib.rs. -/
def POST_PANIC_SYMS : List String :=
  [ "_rust_begin_unwind"
  , "rust_begin_unwind"
  , "core::result::unwrap_failed"
  , "core::option::expect_none_failed"
  , "core::panicking::panic_fmt"
  , "color_backtrace::create_panic_handler"
  , "std::panicking::begin_panic"
  , "begin_panic_fmt"
  , "backtrace::capture" ]

/-- Rust's `str::starts_with(prefix_str)`, expressed on the underlying
character sequences. -/
def strStartsWith (s pre : String) : Bool :=
  pre.data.isPrefixOf s.data

/-- `Frame::is_post_panic_code` from lib.rs: true when the symbol name starts
with one of the panic-machinery name strings; a missing name never matches. -/
def Frame.is_post_panic_code (f : Frame) : Bool :=
  match f.name with
  | some name => POST_PANIC_SYMS.any (fun x => strStartsWith name x)
  | none => false

/-- The `SYM_PREFIXES` list of `Frame::is_runtime_init_code` in lib.rs. -/
def RUNTIME_INIT_SYMS : List String :=
  [ "std::rt::lang_start::"
  , "test::run_test::run_test_inner::"
  , "std::sys_common::backtrace::__rust_begin_short_backtrace" ]

/-- `Frame::is_runtime_init_code` from lib.rs: requires both a name and a file;
matches a startup name start or the special test-harness closure marker. -/
def Frame.is_runtime_init_code (f : Frame) : Bool :=
  match f.name, f.filename with
  | some name, some file =>
    RUNTIME_INIT_SYMS.any (fun x => strStartsWith name x)
      || (name = "\x7b\x7bclosure\x7d\x7d" && file = "src/libtest/lib.rs")
  | _, _ => false

/-- Embedding of Rust's `Iterator::position`: index of the first element
satisfying `p`, or `none`. -/
def position (p : α → Bool) : List α → Option Nat
  | [] => none
  | a :: l => if p a then some 0 else (position p l).map (· + 1)

/-- Embedding of Rust's `Iterator::rposition`: index of the last element
satisfying `p`, or `none`. -/
def rposition (p : α → Bool) : List α → Option Nat
  | [] => none
  | a :: l =>
    match rposition p l with
    | some k => some (k + 1)
    | none => if p a then some 0 else none

/-- `default_frame_filter` from lib.rs: computes the 1-based cutoff range
`top_cutoff..=bottom_cutoff` from the last post-panic frame and the first
runtime-init frame, and retains the frames whose sequence number `n` lies in
that inclusive range. -/
def default_frame_filter (frames : List Frame) : List Frame :=
  let top_cutoff : Nat :=
    match rposition (fun x => x.is_post_panic_code) frames with
    | some x => x + 2
    | none => 0
  let bottom_cutoff : Nat :=
    match position (fun x => x.is_runtime_init_code) frames with
    | some x => x
    | none => frames.length
  frames.filter (fun x => Nat.ble top_cutoff x.n && Nat.ble x.n bottom_cutoff)

/-- A frame filter, as in `FilterCallback` from lib.rs: a function that
rewrites the working list of frames. -/
def FrameFilter : Type := List Frame → List Frame

/-- The `BacktracePrinter` struct from lib.rs. The `colors : ColorScheme`
field holds only `termcolor::ColorSpec` values (an external collaborator that
never influences which items are written) and is left out of the model. -/
structure BacktracePrinter where
  message : String
  verbosity : Verbosity
  lib_verbosity : Verbosity
  strip_function_hash : Bool
  is_panic_handler : Bool
  filters : List FrameFilter
  should_print_addresses : Bool

/-- `BacktracePrinter::default` from lib.rs, with the two environment
variables read during construction passed explicitly. -/
def BacktracePrinter.default (rust_backtrace rust_lib_backtrace : Option String) :
    BacktracePrinter where
  message := "The application panicked (crashed)."
  verbosity := Verbosity.from_env rust_backtrace
  lib_verbosity := Verbosity.lib_from_env rust_lib_backtrace rust_backtrace
  strip_function_hash := false
  is_panic_handler := false
  filters := [default_frame_filter]
  should_print_addresses := false

/-- `BacktracePrinter::current_verbosity` from lib.rs. -/
def BacktracePrinter.current_verbosity (s : BacktracePrinter) : Verbosity :=
  if s.is_panic_handler then s.verbosity else s.lib_verbosity

/-- The configuration change `BacktracePrinter::into_panic_handler` performs
on `self` before capturing it in the hook closure: it sets
`is_panic_handler := true` and leaves every other field unchanged. -/
def BacktracePrinter.into_panic_handler (s : BacktracePrinter) : BacktracePrinter :=
  { s with is_panic_handler := true }

/-- Rust's `char::is_digit(16)`: a decimal digit or a hex letter of either
case. -/
def isHexDigit (c : Char) : Bool :=
  c.isDigit || ('a' ≤ c && c ≤ 'f') || ('A' ≤ c && c ≤ 'F')

/-- UTF-8 byte length of a character sequence: Rust's `str::len` on the
symbol name. -/
def utf8Len (s : List Char) : Nat :=
  (s.map Char.utf8Size).sum

/-- Conversion of a byte index of the UTF-8 encoding into a character index:
`some` exactly when the byte index is a character boundary (Rust
`str::is_char_boundary`, which byte slicing checks); an index that falls
inside a multi-byte character — where a Rust slice panics — or past the end
yields `none`. -/
def byteIdxToCharIdx : List Char → Nat → Option Nat
  | _, 0 => some 0
  | [], _ + 1 => none
  | c :: cs, i + 1 =>
    if i + 1 < c.utf8Size then none
    else (byteIdxToCharIdx cs (i + 1 - c.utf8Size)).map (· + 1)

/-- The hash-suffix test of `Frame::print` in lib.rs, byte-faithful:
`name.len() > 19` is on the UTF-8 byte length and short-circuits, so a name
of at most 19 bytes is never sliced; then `&name[len-19..len-16] == "::h"`
byte-slices, panicking — modelled as `Except.error` — when byte position
`len-19` or `len-16` is not a character boundary; the final
`name[len-16..].chars().all(is_digit(16))` slices at bounds that are both
boundaries whenever the middle slice succeeded, so it never panics (Rust's
`&&` short-circuit on a failed marker test skips a slice that cannot fail,
hence computing the conjunction eagerly is value-equal). -/
def hasHashSuffix (name : List Char) : Except String Bool :=
  if utf8Len name > 19 then
    match byteIdxToCharIdx name (utf8Len name - 19),
        byteIdxToCharIdx name (utf8Len name - 16) with
    | some ca, some cb =>
      Except.ok (decide ((name.drop ca).take (cb - ca) = [':', ':', 'h'])
        && (name.drop cb).all isHexDigit)
    | _, _ => Except.error "byte index is not a char boundary"
  else Except.ok false

/-- What `Frame::print` writes for the symbol name: either the whole name in
the role color, or a stem plus a hash suffix (the suffix omitted entirely when
`strip_function_hash` is set, else written in the hash sub-role color). -/
inductive NameOutput
  | whole (s : List Char)
  | stemAndHash (stem hash : List Char)
  | stemOnly (stem : List Char)
deriving DecidableEq, Repr

/-- The name-printing portion of `Frame::print` in lib.rs: when the
hash-suffix test passes, the name is byte-split at `len - 19` (a character
boundary verified by the test; the `none` arm is unreachable but mirrors that
the write-path slices would panic on a non-boundary), dropping the suffix
when `strip` is set; a panic in the test propagates; otherwise the name is
written unsplit. -/
def printName (strip : Bool) (name : List Char) : Except String NameOutput :=
  match hasHashSuffix name with
  | Except.error e => Except.error e
  | Except.ok true =>
    (match byteIdxToCharIdx name (utf8Len name - 19) with
     | some ca =>
       Except.ok (if strip then NameOutput.stemOnly (name.take ca)
         else NameOutput.stemAndHash (name.take ca) (name.drop ca))
     | none => Except.error "byte index is not a char boundary")
  | Except.ok false => Except.ok (NameOutput.whole name)

/-- The `RUST_BACKTRACE=1` hint written by `print_panic_info` at `Minimal`
verbosity (the consecutive `write!` fragments of one hint, concatenated). -/
def hintRaiseVerbosity : String :=
  "\nBacktrace omitted.\n\nRun with RUST_BACKTRACE=1 environment variable to display it."

/-- The `COLORBT_SHOW_HIDDEN=1` hint written by `print_panic_info` at
`Medium` and `Full` verbosity. -/
def hintDisableFiltering : String :=
  "\nRun with COLORBT_SHOW_HIDDEN=1 environment variable to disable frame filtering."

/-- The `RUST_BACKTRACE=full` hint written by `print_panic_info` whenever the
current verbosity is at most `Medium`. -/
def hintSourceSnippets : String :=
  "Run with RUST_BACKTRACE=full to include source snippets."

/-- The verbosity-hint block of `BacktracePrinter::print_panic_info` in
lib.rs, as the list of hints it writes for a given current verbosity: the
first `if` picks the raise-verbosity hint (at `Minimal`) or the
disable-filtering hint (otherwise); a second, independent `if` appends the
source-snippets hint whenever the verbosity is at most `Medium`. -/
def verbosityHints (v : Verbosity) : List String :=
  (if v = Verbosity.Minimal then [hintRaiseVerbosity] else [hintDisableFiltering])
    ++ (if v.toNat ≤ Verbosity.Medium.toNat then [hintSourceSnippets] else [])

/-- The `COLORBT_SHOW_HIDDEN` test of `BacktracePrinter::print_trace` in
lib.rs: the filter pipeline is skipped exactly when the variable is set to
`"1"`, `"on"` or `"y"`. -/
def showHiddenBypass : Option String → Bool
  | some "1" => true
  | some "on" => true
  | some "y" => true
  | _ => false

/-- The filter loop of `print_trace`: each configured filter rewrites the
working list in order. -/
def applyFilters (filters : List FrameFilter) (frames : List Frame) : List Frame :=
  filters.foldl (fun acc f => f acc) frames

/-- The kept working set computed by `print_trace`: all captured frames when
the `COLORBT_SHOW_HIDDEN` override is affirmative (the variable's value is
re-read from the environment inside every `print_trace` call, hence it is a
per-render parameter here), otherwise the result of running every filter. -/
def computeKept (show_hidden : Option String) (filters : List FrameFilter)
    (frames : List Frame) : List Frame :=
  if showHiddenBypass show_hidden then frames else applyFilters filters frames

/-- One semantically distinct item written by `print_trace`: the `BACKTRACE`
section header, the `<empty backtrace>` notice, a `⋮ n frame(s) hidden ⋮`
banner, or one frame entry printed with its sequence number `n`. -/
inductive TraceItem
  | header
  | emptyNotice
  | hidden (count : Nat)
  | frameLine (n : Nat)
deriving DecidableEq, Repr

/-- The frame loop of `print_trace`: walking the kept sequence numbers with
the running `last_n`, each step first emits a hidden-frames banner when
`frame.n - last_n - 1` is nonzero, then the frame itself. -/
def renderKept : Nat → List Nat → List TraceItem
  | _, [] => []
  | last_n, n :: rest =>
    (if n - last_n - 1 ≠ 0 then [TraceItem.hidden (n - last_n - 1)] else [])
      ++ TraceItem.frameLine n :: renderKept n rest

/-- `BacktracePrinter::print_trace` from lib.rs, as the sequence of items it
writes: header; on an empty kept set only the `<empty backtrace>` notice;
otherwise the kept frames sorted by sequence number with gap banners, and a
trailing banner when the last kept number is below the last captured one. -/
def printTrace (show_hidden : Option String) (filters : List FrameFilter)
    (frames : List Frame) : List TraceItem :=
  let filtered := computeKept show_hidden filters frames
  if filtered.isEmpty then [TraceItem.header, TraceItem.emptyNotice]
  else
    let sorted := filtered.mergeSort (fun a b => Nat.ble a.n b.n)
    let keptNs := sorted.map Frame.n
    let last_filtered_n := keptNs.getLastD 0
    let last_unfiltered_n := (frames.map Frame.n).getLastD 0
    TraceItem.header ::
      (renderKept 0 keptNs
        ++ if last_filtered_n < last_unfiltered_n then
            [TraceItem.hidden (last_unfiltered_n - last_filtered_n)]
          else [])

/-- The hidden-frame count a `TraceItem` reports (0 for non-banner items). -/
def hiddenCount : TraceItem → Nat
  | TraceItem.hidden n => n
  | _ => 0

/-- What a file open plus read yielded, abstracting `File::open` and
`BufReader::lines` in `Frame::print_source_if_avail`. -/
inductive SourceFile
  | found (lines : List String)
  | notFound
  | ioError (msg : String)

/-- The line-window computation of `Frame::print_source_if_avail` in lib.rs:
`start_line = lineno - min 2 (lineno - 1)`, then skip `start_line - 1` lines,
take 5, and pair them with their absolute 1-based line numbers (the Rust code
zips with the unbounded counter `start_line..`). -/
def readSnippetLines (lines : List String) (lineno : Nat) : List (Nat × String) :=
  let start_line := lineno - min 2 (lineno - 1)
  List.enumFrom start_line ((lines.drop (start_line - 1)).take 5)

/-- `Frame::print_source_if_avail` from lib.rs, its output modelled as the
selected snippet lines: missing line number or file name short-circuits to
success with no lines; a `NotFound` open error is swallowed (success, no
lines); any other I/O error propagates; otherwise the 5-line window around
`lineno` is produced. -/
def print_source_if_avail (file : SourceFile) (lineno : Option Nat)
    (filename : Option String) : Except String (List (Nat × String)) :=
  match lineno, filename with
  | some l, some _ =>
    (match file with
     | SourceFile.found lines => Except.ok (readSnippetLines lines l)
     | SourceFile.notFound => Except.ok []
     | SourceFile.ioError e => Except.error e)
  | _, _ => Except.ok []

/-- The hook closure built by `BacktracePrinter::into_panic_handler` in
lib.rs, given the outcome of `print_panic_info` for one panic event: the
closure returns normally in every case (its type is total — it never raises),
and when the render failed it writes exactly one best-effort diagnostic line
through `eprintln!` (the fallback stderr channel), never re-raising the
error. The returned list holds the fallback lines written. -/
def panicHandlerFallback (render_result : Except String Unit) : List String :=
  match render_result with
  | Except.ok _ => []
  | Except.error e => ["Error while printing panic: " ++ e]

/-- C4 (counterexample): the claim says that at `Minimal` verbosity only the
raise-verbosity variable is mentioned in the hint block, and that the
source-snippets variable is mentioned exactly at levels `Medium` or `Full`
below `Full`; but `print_panic_info` emits the `RUST_BACKTRACE=full`
source-snippets hint whenever verbosity is at most `Medium`, which includes
`Minimal`. -/
theorem verbosity_hints_minimal_counterexample :
    hintSourceSnippets ∈ verbosityHints Verbosity.Minimal
      ∧ verbosityHints Verbosity.Minimal ≠ [hintRaiseVerbosity] := by
  constructor
  · simp [verbosityHints, Verbosity.toNat]
  · intro h
    simpa [verbosityHints, Verbosity.toNat] using congrArg List.length h

/-- C4 (amended): the hint block mentions the raise-verbosity variable at
`Minimal` and the disable-filtering variable at `Medium` and `Full`; the
source-snippets variable is mentioned exactly when the level is at most
`Medium`, i.e. at `Minimal` and at `Medium`. -/
theorem verbosity_hints_by_level :
    verbosityHints Verbosity.Minimal = [hintRaiseVerbosity, hintSourceSnippets]
      ∧ verbosityHints Verbosity.Medium = [hintDisableFiltering, hintSourceSnippets]
      ∧ verbosityHints Verbosity.Full = [hintDisableFiltering] :=
  ⟨rfl, rfl, rfl⟩

/-- C5: when the `COLORBT_SHOW_HIDDEN` override read at render time is
affirmative (`"1"`, `"on"` or `"y"`), `print_trace` skips every configured
filter and keeps all originally captured frames; with a non-affirmative value
the same stored filter configuration runs unchanged. The override value is a
parameter of each render (`print_trace` re-reads the variable on every call),
and the printer configuration, a read-only parameter here, is never
mutated. -/
theorem show_hidden_override (filters : List FrameFilter) (frames : List Frame) :
    (∀ env : Option String, showHiddenBypass env = true →
        computeKept env filters frames = frames)
      ∧ (∀ env : Option String, showHiddenBypass env = false →
        computeKept env filters frames = applyFilters filters frames) := by
  constructor <;> intro env h <;> simp [computeKept, h]

/-- C5 witness: with `COLORBT_SHOW_HIDDEN=1`, a frame the default filter
would drop (a pure post-panic frame) is still kept. -/
theorem show_hidden_override_witness :
    computeKept (some "1") [default_frame_filter]
        [⟨1, some "rust_begin_unwind", none, none, 0⟩]
      = [⟨1, some "rust_begin_unwind", none, none, 0⟩] :=
  (show_hidden_override [default_frame_filter]
    [⟨1, some "rust_begin_unwind", none, none, 0⟩]).1 (some "1") rfl

/-- C8: the hook closure installed by `into_panic_handler` catches every
rendering failure at its boundary: it is a total function (it never raises a
new fatal error, so the original panic's propagation continues undisturbed),
it writes exactly one best-effort diagnostic line on the fallback stderr
channel when the render failed, and writes nothing extra when the render
succeeded. -/
theorem panic_handler_containment :
    (∀ e : String,
        panicHandlerFallback (Except.error e) = ["Error while printing panic: " ++ e])
      ∧ (∀ u : Unit, panicHandlerFallback (Except.ok u) = [])
      ∧ (∀ r : Except String Unit, (panicHandlerFallback r).length ≤ 1) := by
  refine ⟨fun e => rfl, fun u => rfl, fun r => ?_⟩
  cases r <;> simp [panicHandlerFallback]

/-- C10: a printer carries two verbosity settings; the hook path
(`is_panic_handler = true`, as set by `into_panic_handler`) uses `verbosity`,
derived from `RUST_BACKTRACE` in `BacktracePrinter::default`, while every
direct render uses `lib_verbosity`, derived from `RUST_LIB_BACKTRACE` with
fallback to `RUST_BACKTRACE`; `convert_env` maps unset to `Minimal`, the
literal `"full"` to `Full`, and any other set value to `Medium`. -/
theorem verbosity_selection :
    (∀ p : BacktracePrinter, p.into_panic_handler.current_verbosity = p.verbosity)
      ∧ (∀ p : BacktracePrinter, p.is_panic_handler = false →
          p.current_verbosity = p.lib_verbosity)
      ∧ (∀ rb rlb : Option String,
          (BacktracePrinter.default rb rlb).verbosity = Verbosity.from_env rb
            ∧ (BacktracePrinter.default rb rlb).lib_verbosity
                = Verbosity.lib_from_env rlb rb
            ∧ (BacktracePrinter.default rb rlb).is_panic_handler = false
            ∧ ((BacktracePrinter.default rb rlb).into_panic_handler).current_verbosity
                = Verbosity.from_env rb
            ∧ (BacktracePrinter.default rb rlb).current_verbosity
                = Verbosity.lib_from_env rlb rb)
      ∧ (∀ rb : Option String, Verbosity.lib_from_env none rb = Verbosity.from_env rb)
      ∧ convert_env none = Verbosity.Minimal
      ∧ convert_env (some "full") = Verbosity.Full
      ∧ (∀ x : String, x ≠ "full" → convert_env (some x) = Verbosity.Medium) := by
  refine ⟨fun p => rfl, fun p h => ?_, fun rb rlb => ⟨rfl, rfl, rfl, rfl, rfl⟩,
    fun rb => rfl, rfl, rfl, fun x h => ?_⟩
  · simp [BacktracePrinter.current_verbosity, h]
  · simp [convert_env, h]

/-- C10 witness: a default printer with `RUST_BACKTRACE=1` set and
`RUST_LIB_BACKTRACE` unset renders directly at its library verbosity, and
`"1"` converts to `Medium`. -/
theorem verbosity_selection_witness :
    (BacktracePrinter.default (some "1") none).current_verbosity
        = (BacktracePrinter.default (some "1") none).lib_verbosity
      ∧ convert_env (some "1") = Verbosity.Medium :=
  ⟨verbosity_selection.2.1 (BacktracePrinter.default (some "1") none) rfl,
    verbosity_selection.2.2.2.2.2.2 "1" (by decide)⟩

/-- Helper: UTF-8 byte length of a concatenation. -/
theorem utf8Len_append (xs ys : List Char) :
    utf8Len (xs ++ ys) = utf8Len xs + utf8Len ys := by
  simp [utf8Len]

/-- Helper: every hexadecimal digit is ASCII, hence one UTF-8 byte. -/
theorem utf8Size_eq_one_of_isHexDigit {c : Char} (h : isHexDigit c = true) :
    c.utf8Size = 1 := by
  simp only [isHexDigit, Char.isDigit, Bool.or_eq_true, Bool.and_eq_true,
    decide_eq_true_eq] at h
  unfold Char.utf8Size
  rw [if_pos]
  rcases h with (⟨h1, h2⟩ | ⟨h1, h2⟩) | ⟨h1, h2⟩
  · exact UInt32.le_trans h2 (by decide)
  · exact UInt32.le_trans h2 (by decide)
  · exact UInt32.le_trans h2 (by decide)

/-- Helper: a sequence of hexadecimal digits has as many bytes as
characters. -/
theorem utf8Len_hex {l : List Char} (h : ∀ c ∈ l, isHexDigit c = true) :
    utf8Len l = l.length := by
  induction l with
  | nil => rfl
  | cons c cs ih =>
    have h1 := utf8Size_eq_one_of_isHexDigit (h c (List.mem_cons_self c cs))
    have h2 := ih (fun x hx => h x (List.mem_cons_of_mem c hx))
    simp only [utf8Len, List.map_cons, List.sum_cons, List.length_cons] at *
    omega

/-- Helper: a nonempty character sequence occupies at least one byte. -/
theorem utf8Len_pos {l : List Char} (h : l ≠ []) : 0 < utf8Len l := by
  cases l with
  | nil => cases h rfl
  | cons c cs =>
    have := Char.utf8Size_pos c
    simp only [utf8Len, List.map_cons, List.sum_cons]
    omega

/-- Helper: the byte index right after a prefix is a character boundary, at
character index the prefix's length. -/
theorem byteIdxToCharIdx_prefix (xs ys : List Char) :
    byteIdxToCharIdx (xs ++ ys) (utf8Len xs) = some xs.length := by
  induction xs with
  | nil =>
    show byteIdxToCharIdx ys 0 = some 0
    cases ys <;> rfl
  | cons c cs ih =>
    have hpos := Char.utf8Size_pos c
    have hval : utf8Len (c :: cs) = c.utf8Size + utf8Len cs := by
      simp [utf8Len]
    obtain ⟨m, hm⟩ : ∃ m, utf8Len (c :: cs) = m + 1 := ⟨utf8Len (c :: cs) - 1, by omega⟩
    rw [List.cons_append, hm]
    simp only [byteIdxToCharIdx]
    rw [if_neg (by omega), show m + 1 - c.utf8Size = utf8Len cs from by omega, ih]
    simp

/-- Helper: a successful boundary conversion is in character range, and the
character prefix it cuts off has exactly the given number of bytes. -/
theorem byteIdxToCharIdx_spec {l : List Char} {i ci : Nat}
    (h : byteIdxToCharIdx l i = some ci) :
    ci ≤ l.length ∧ utf8Len (l.take ci) = i := by
  induction l generalizing i ci with
  | nil =>
    cases i with
    | zero =>
      simp only [byteIdxToCharIdx] at h
      cases h
      exact ⟨by simp, rfl⟩
    | succ j =>
      simp only [byteIdxToCharIdx] at h
      cases h
  | cons c cs ih =>
    cases i with
    | zero =>
      simp only [byteIdxToCharIdx] at h
      cases h
      exact ⟨by simp, rfl⟩
    | succ j =>
      simp only [byteIdxToCharIdx] at h
      by_cases hlt : j + 1 < c.utf8Size
      · rw [if_pos hlt] at h; cases h
      · rw [if_neg hlt] at h
        cases hb : byteIdxToCharIdx cs (j + 1 - c.utf8Size) with
        | none => rw [hb] at h; cases h
        | some cj =>
          rw [hb] at h
          simp only [Option.map_some'] at h
          cases h
          obtain ⟨hle, hlen⟩ := ih hb
          refine ⟨by simpa using Nat.succ_le_succ hle, ?_⟩
          rw [List.take_succ_cons]
          simp only [utf8Len, List.map_cons, List.sum_cons]
          simp only [utf8Len] at hlen
          omega

/-- Helper: a name decomposing as nonempty stem, `"::h"` marker and 16 hex
digits passes the hash-suffix test, and the byte position `len - 19` is the
character boundary right after the stem. -/
theorem hashSuffix_of_decomposition (name : List Char) : ∀ stem hex : List Char,
    name = stem ++ ([':', ':', 'h'] ++ hex) → stem ≠ [] → hex.length = 16 →
    (∀ c ∈ hex, isHexDigit c = true) →
    hasHashSuffix name = Except.ok true
      ∧ byteIdxToCharIdx name (utf8Len name - 19) = some stem.length
      ∧ name.take stem.length = stem
      ∧ name.drop stem.length = [':', ':', 'h'] ++ hex := by
  intro stem hex h hstem hlen hhex
  have hWpos : 0 < utf8Len stem := utf8Len_pos hstem
  have hhexLen : utf8Len hex = 16 := by rw [utf8Len_hex hhex, hlen]
  have hmark3 : utf8Len [':', ':', 'h'] = 3 := by decide
  have hnl : utf8Len name = utf8Len stem + 19 := by
    rw [h, utf8Len_append, utf8Len_append, hmark3, hhexLen]
  have h19 : utf8Len name - 19 = utf8Len stem := by omega
  have hca : byteIdxToCharIdx name (utf8Len name - 19) = some stem.length := by
    rw [h19, h]
    exact byteIdxToCharIdx_prefix stem _
  have hcb : byteIdxToCharIdx name (utf8Len name - 16) = some (stem.length + 3) := by
    have h16 : utf8Len name - 16 = utf8Len (stem ++ [':', ':', 'h']) := by
      rw [utf8Len_append, hmark3]; omega
    rw [h16, h, ← List.append_assoc]
    have := byteIdxToCharIdx_prefix (stem ++ [':', ':', 'h']) hex
    simpa using this
  have htake : name.take stem.length = stem := by
    rw [h]; exact List.take_left stem _
  have hdrop : name.drop stem.length = [':', ':', 'h'] ++ hex := by
    rw [h]; exact List.drop_left stem _
  have hdrop16 : name.drop (stem.length + 3) = hex := by
    rw [h, ← List.append_assoc]
    exact List.drop_left' (by simp)
  refine ⟨?_, hca, htake, hdrop⟩
  unfold hasHashSuffix
  rw [if_pos (by omega), hca, hcb]
  show Except.ok (decide ((name.drop stem.length).take (stem.length + 3 - stem.length)
      = [':', ':', 'h']) && (name.drop (stem.length + 3)).all isHexDigit) = Except.ok true
  rw [show stem.length + 3 - stem.length = 3 from by omega, hdrop, hdrop16]
  simp only [Except.ok.injEq, Bool.and_eq_true, decide_eq_true_eq, List.all_eq_true]
  exact ⟨by simp, hhex⟩

/-- C3 (amended): `Frame::print`'s split test works on the UTF-8 byte
encoding of the symbol name. It splits into a stem and a hash suffix exactly
when the name decomposes as a nonempty stem, the 3-character ASCII marker
`"::h"` and 16 trailing hex digits of either case (equivalently: byte length
over 19 with the marker at byte `len-19`); the split is at exactly that
boundary, with the suffix dropped when hash-stripping is on. A name of at
most 19 bytes, or one whose test fails at valid character boundaries, is
written whole; but when the byte length exceeds 19 and byte position
`len-19` or `len-16` falls inside a multi-byte character, the renderer
panics on the byte slice instead of writing the name. -/
theorem frame_name_hash_split (strip : Bool) (name : List Char) :
    (hasHashSuffix name = Except.ok true ↔
      ∃ stem hex : List Char,
        name = stem ++ ([':', ':', 'h'] ++ hex) ∧ stem ≠ [] ∧ hex.length = 16 ∧
          ∀ c ∈ hex, isHexDigit c = true)
    ∧ (∀ stem hex : List Char,
        name = stem ++ ([':', ':', 'h'] ++ hex) → stem ≠ [] → hex.length = 16 →
        (∀ c ∈ hex, isHexDigit c = true) →
        printName strip name = Except.ok
          (if strip then NameOutput.stemOnly stem
            else NameOutput.stemAndHash stem ([':', ':', 'h'] ++ hex)))
    ∧ (hasHashSuffix name = Except.ok false →
        printName strip name = Except.ok (NameOutput.whole name))
    ∧ (utf8Len name ≤ 19 → printName strip name = Except.ok (NameOutput.whole name))
    ∧ ((∃ e, hasHashSuffix name = Except.error e) ↔
        19 < utf8Len name
          ∧ (byteIdxToCharIdx name (utf8Len name - 19) = none
            ∨ byteIdxToCharIdx name (utf8Len name - 16) = none))
    ∧ (∀ e, hasHashSuffix name = Except.error e → printName strip name = Except.error e) := by
  have hfalse : hasHashSuffix name = Except.ok false →
      printName strip name = Except.ok (NameOutput.whole name) := by
    intro h
    unfold printName
    rw [h]
  refine ⟨⟨?_, ?_⟩, ?_, hfalse, ?_, ⟨?_, ?_⟩, ?_⟩
  · intro h
    unfold hasHashSuffix at h
    by_cases h19 : utf8Len name > 19
    · rw [if_pos h19] at h
      cases hb1 : byteIdxToCharIdx name (utf8Len name - 19) with
      | none => rw [hb1] at h; cases h
      | some ca =>
        cases hb2 : byteIdxToCharIdx name (utf8Len name - 16) with
        | none => rw [hb1, hb2] at h; cases h
        | some cb =>
          rw [hb1, hb2] at h
          replace h : Except.ok (decide ((name.drop ca).take (cb - ca) = [':', ':', 'h'])
              && (name.drop cb).all isHexDigit) = Except.ok true := h
          simp only [Except.ok.injEq, Bool.and_eq_true, decide_eq_true_eq,
            List.all_eq_true] at h
          obtain ⟨hmid, hhex⟩ := h
          obtain ⟨hcale, hcalen⟩ := byteIdxToCharIdx_spec hb1
          obtain ⟨hcble, hcblen⟩ := byteIdxToCharIdx_spec hb2
          have hcacb : ca ≤ cb := by
            by_contra hlt
            push_neg at hlt
            have heq : (name.take ca).take cb = name.take cb := by
              rw [List.take_take, Nat.min_def, if_pos (by omega)]
            have hsplit : utf8Len (name.take ca)
                = utf8Len (name.take cb) + utf8Len ((name.take ca).drop cb) := by
              conv_lhs => rw [← List.take_append_drop cb (name.take ca)]
              rw [utf8Len_append, heq]
            omega
          refine ⟨name.take ca, name.drop cb, ?_, ?_, ?_, hhex⟩
          · have hd : name.drop ca = [':', ':', 'h'] ++ name.drop cb := by
              conv_lhs => rw [← List.take_append_drop (cb - ca) (name.drop ca)]
              rw [hmid, List.drop_drop, show ca + (cb - ca) = cb from by omega]
            conv_lhs => rw [← List.take_append_drop ca name]
            rw [hd]
          · intro hc
            rw [hc] at hcalen
            have : utf8Len ([] : List Char) = 0 := rfl
            omega
          · have hsplit : utf8Len name
                = utf8Len (name.take cb) + utf8Len (name.drop cb) := by
              conv_lhs => rw [← List.take_append_drop cb name]
              rw [utf8Len_append]
            have h16 : utf8Len (name.drop cb) = 16 := by omega
            rw [← utf8Len_hex hhex, h16]
    · rw [if_neg h19] at h
      cases h
  · rintro ⟨stem, hex, h, hstem, hlen, hhex⟩
    exact (hashSuffix_of_decomposition name stem hex h hstem hlen hhex).1
  · intro stem hex h hstem hlen hhex
    obtain ⟨hok, hca, htake, hdrop⟩ := hashSuffix_of_decomposition name stem hex h hstem hlen hhex
    have hstep : printName strip name
        = Except.ok (if strip then NameOutput.stemOnly (name.take stem.length)
            else NameOutput.stemAndHash (name.take stem.length) (name.drop stem.length)) := by
      unfold printName
      rw [hok, hca]
    rw [hstep, htake, hdrop]
  · intro hle
    apply hfalse
    unfold hasHashSuffix
    rw [if_neg (by omega)]
  · rintro ⟨e, he⟩
    unfold hasHashSuffix at he
    by_cases h19 : utf8Len name > 19
    · rw [if_pos h19] at he
      cases hb1 : byteIdxToCharIdx name (utf8Len name - 19) with
      | none => exact ⟨h19, Or.inl rfl⟩
      | some ca =>
        cases hb2 : byteIdxToCharIdx name (utf8Len name - 16) with
        | none => exact ⟨h19, Or.inr rfl⟩
        | some cb =>
          rw [hb1, hb2] at he
          replace he : Except.ok (decide ((name.drop ca).take (cb - ca) = [':', ':', 'h'])
              && (name.drop cb).all isHexDigit) = Except.error e := he
          cases he
    · rw [if_neg h19] at he
      cases he
  · rintro ⟨h19, hor⟩
    refine ⟨"byte index is not a char boundary", ?_⟩
    unfold hasHashSuffix
    rw [if_pos h19]
    rcases hor with h1 | h2
    · rw [h1]
    · cases hb1 : byteIdxToCharIdx name (utf8Len name - 19) with
      | none => rfl
      | some ca => rw [h2]
  · intro e he
    unfold printName
    rw [he]

/-- C3 (counterexample): the ten-character name `ββββββββββ` has 20 UTF-8
bytes, so `Frame::print` evaluates the byte slice `&name[1..4]`, whose start
falls inside the first two-byte character: the Rust slice panics. The claim
instead requires this name — 10 characters, at most 19, and lacking the
marker — to be written unsplit. -/
theorem frame_name_hash_split_counterexample :
    (List.replicate 10 'β').length ≤ 19
      ∧ printName false (List.replicate 10 'β')
          = Except.error "byte index is not a char boundary"
      ∧ ∀ out : NameOutput, printName false (List.replicate 10 'β') ≠ Except.ok out := by
  have h : printName false (List.replicate 10 'β')
      = Except.error "byte index is not a char boundary" := rfl
  refine ⟨by decide, h, fun out hcon => ?_⟩
  rw [h] at hcon
  cases hcon

/-- C3 witness: the 27-byte ASCII name `app::run::h0123456789AbCdEf` is
split into the stem `app::run` and the suffix `::h0123456789AbCdEf`; the
suffix has mixed-case hex digits. -/
theorem frame_name_hash_split_witness :
    printName false ("app::run::h0123456789AbCdEf".toList)
      = Except.ok (NameOutput.stemAndHash ("app::run".toList)
          ("::h0123456789AbCdEf".toList)) := by
  have h := (frame_name_hash_split false ("app::run::h0123456789AbCdEf".toList)).2.1
    ("app::run".toList) ("0123456789AbCdEf".toList) (by decide) (by decide) (by decide)
    (by decide)
  simpa using h

/-- C6: the snippet reader on a found file around target line `L ≥ 3` with at
least two lines of trailing context yields exactly 5 lines whose absolute
line numbers are `L-2 .. L+2` (the target third); for `L < 3` the window
starts at absolute line 1 (never below), with fewer leading lines; a file
that cannot be found yields no lines and still succeeds. -/
theorem source_snippet_window (lines : List String) (lineno : Nat) (fname : String) :
    print_source_if_avail (SourceFile.found lines) (some lineno) (some fname)
        = Except.ok (readSnippetLines lines lineno)
    ∧ (3 ≤ lineno → lineno + 2 ≤ lines.length →
        (readSnippetLines lines lineno).length = 5
        ∧ (readSnippetLines lines lineno).map Prod.fst
            = [lineno - 2, lineno - 1, lineno, lineno + 1, lineno + 2])
    ∧ (1 ≤ lineno → lineno < 3 →
        (readSnippetLines lines lineno).map Prod.fst
            = List.range' 1 (min 5 lines.length))
    ∧ print_source_if_avail SourceFile.notFound (some lineno) (some fname) = Except.ok [] := by
  refine ⟨rfl, ?_, ?_, rfl⟩
  · intro h3 hlen
    obtain ⟨m, rfl⟩ : ∃ m, lineno = m + 3 := ⟨lineno - 3, by omega⟩
    have hstart : m + 3 - min 2 (m + 3 - 1) = m + 1 := by omega
    have htklen : ((lines.drop m).take 5).length = 5 := by
      simp [List.length_take, List.length_drop]
      omega
    constructor
    · simp [readSnippetLines, hstart, htklen]
    · simp only [readSnippetLines, hstart, List.enumFrom_map_fst, htklen,
        show m + 1 - 1 = m from rfl]
      rw [show (5 : Nat) = 4 + 1 from rfl, List.range'_succ]
      rw [show (4 : Nat) = 3 + 1 from rfl, List.range'_succ]
      rw [show (3 : Nat) = 2 + 1 from rfl, List.range'_succ]
      rw [show (2 : Nat) = 1 + 1 from rfl, List.range'_succ]
      rw [show (1 : Nat) = 0 + 1 from rfl, List.range'_succ]
      simp
  · intro h1 h3
    have : lineno = 1 ∨ lineno = 2 := by omega
    rcases this with rfl | rfl <;>
      simp [readSnippetLines, List.enumFrom_map_fst, List.length_take, List.length_drop,
        List.range']

/-- C6 witness: on a 6-line file, target line 4 yields the 5-line window
numbered 2..6 with the target third; target line 1 on a 3-line file starts at
absolute line 1. -/
theorem source_snippet_window_witness :
    (readSnippetLines ["l1", "l2", "l3", "l4", "l5", "l6"] 4).length = 5
      ∧ (readSnippetLines ["l1", "l2", "l3", "l4", "l5", "l6"] 4).map Prod.fst
          = [2, 3, 4, 5, 6]
      ∧ (readSnippetLines ["l1", "l2", "l3"] 1).map Prod.fst = List.range' 1 (min 5 3) :=
  ⟨((source_snippet_window ["l1", "l2", "l3", "l4", "l5", "l6"] 4 "app.rs").2.1
      (by decide) (by decide)).1,
    ((source_snippet_window ["l1", "l2", "l3", "l4", "l5", "l6"] 4 "app.rs").2.1
      (by decide) (by decide)).2,
    (source_snippet_window ["l1", "l2", "l3"] 1 "app.rs").2.2.1 (by decide) (by decide)⟩

/-- Helper: when `position` finds nothing, no element satisfies the test. -/
theorem position_none {p : α → Bool} {l : List α} (h : position p l = none) :
    ∀ j (hj : j < l.length), p (l.get ⟨j, hj⟩) = false := by
  induction l with
  | nil => intro j hj; simp at hj
  | cons a t ih =>
    intro j hj
    simp only [position] at h
    by_cases hpa : p a = true
    · rw [if_pos hpa] at h; cases h
    · rw [if_neg hpa] at h
      have ht : position p t = none := by
        cases hp : position p t with
        | none => rfl
        | some k => rw [hp] at h; cases h
      cases j with
      | zero => simpa [Bool.not_eq_true] using hpa
      | succ j => exact ih ht j (by simpa using hj)

/-- Helper: `position` returns the index of the first element satisfying the
test: it is in bounds, it satisfies the test, and nothing before it does. -/
theorem position_some {p : α → Bool} {l : List α} {k : Nat} (h : position p l = some k) :
    ∃ hk : k < l.length, p (l.get ⟨k, hk⟩) = true
      ∧ ∀ j (hj : j < l.length), j < k → p (l.get ⟨j, hj⟩) = false := by
  induction l generalizing k with
  | nil => cases h
  | cons a t ih =>
    simp only [position] at h
    by_cases hpa : p a = true
    · rw [if_pos hpa] at h
      cases h
      exact ⟨by simp, hpa, fun j hj hjk => absurd hjk (by omega)⟩
    · rw [if_neg hpa] at h
      cases hp : position p t with
      | none => rw [hp] at h; cases h
      | some b =>
        rw [hp] at h
        simp only [Option.map_some'] at h
        cases h
        obtain ⟨hb, hpb, hall⟩ := ih hp
        refine ⟨by simpa using Nat.succ_lt_succ hb, hpb, ?_⟩
        intro j hj hjk
        cases j with
        | zero => simpa [Bool.not_eq_true] using hpa
        | succ j => exact hall j (by simpa using hj) (by omega)

/-- Helper: when `rposition` finds nothing, no element satisfies the test. -/
theorem rposition_none {p : α → Bool} {l : List α} (h : rposition p l = none) :
    ∀ j (hj : j < l.length), p (l.get ⟨j, hj⟩) = false := by
  induction l with
  | nil => intro j hj; simp at hj
  | cons a t ih =>
    intro j hj
    simp only [rposition] at h
    cases hp : rposition p t with
    | some k => rw [hp] at h; cases h
    | none =>
      rw [hp] at h
      have hpa : p a = false := by
        by_cases hc : p a = true
        · rw [if_pos hc] at h; cases h
        · simpa [Bool.not_eq_true] using hc
      cases j with
      | zero => simpa using hpa
      | succ j => exact ih hp j (by simpa using hj)

/-- Helper: `rposition` returns the index of the last element satisfying the
test: it is in bounds, it satisfies the test, and nothing after it does. -/
theorem rposition_some {p : α → Bool} {l : List α} {k : Nat} (h : rposition p l = some k) :
    ∃ hk : k < l.length, p (l.get ⟨k, hk⟩) = true
      ∧ ∀ j (hj : j < l.length), k < j → p (l.get ⟨j, hj⟩) = false := by
  induction l generalizing k with
  | nil => cases h
  | cons a t ih =>
    simp only [rposition] at h
    cases hp : rposition p t with
    | some b =>
      rw [hp] at h
      cases h
      obtain ⟨hb, hpb, hall⟩ := ih hp
      refine ⟨by simpa using Nat.succ_lt_succ hb, hpb, ?_⟩
      intro j hj hkj
      cases j with
      | zero => omega
      | succ j => exact hall j (by simpa using hj) (by omega)
    | none =>
      rw [hp] at h
      by_cases hpa : p a = true
      · rw [if_pos hpa] at h
        cases h
        refine ⟨by simp, hpa, ?_⟩
        intro j hj hkj
        cases j with
        | zero => omega
        | succ j => exact rposition_none hp j (by simpa using hj)
      · rw [if_neg hpa] at h; cases h

/-- Helper: the `top_cutoff` of `default_frame_filter` admits the 1-based
sequence number `i + 1` exactly when no element at position `i` or later
satisfies the test. -/
theorem top_cutoff_le_iff (p : α → Bool) (l : List α) (i : Nat) :
    ((match rposition p l with | some x => x + 2 | none => 0) ≤ i + 1 ↔
      ∀ j (hj : j < l.length), i ≤ j → p (l.get ⟨j, hj⟩) = false) := by
  cases hr : rposition p l with
  | none =>
    show 0 ≤ i + 1 ↔ _
    exact ⟨fun _ j hj _ => rposition_none hr j hj, fun _ => Nat.zero_le _⟩
  | some k =>
    obtain ⟨hk, hpk, hall⟩ := rposition_some hr
    show k + 2 ≤ i + 1 ↔ _
    constructor
    · intro hle j hj hij
      exact hall j hj (by omega)
    · intro h
      by_contra hc
      have hik : i ≤ k := by omega
      have := h k hk hik
      rw [this] at hpk
      cases hpk

/-- Helper: the `bottom_cutoff` of `default_frame_filter` admits the 1-based
sequence number `i + 1` exactly when no element at position `i` or earlier
satisfies the test. -/
theorem bottom_cutoff_ge_iff (p : α → Bool) (l : List α) (i : Nat) (hi : i < l.length) :
    (i + 1 ≤ (match position p l with | some x => x | none => l.length) ↔
      ∀ j (hj : j < l.length), j ≤ i → p (l.get ⟨j, hj⟩) = false) := by
  cases hb : position p l with
  | none =>
    show i + 1 ≤ l.length ↔ _
    exact ⟨fun _ j hj _ => position_none hb j hj, fun _ => by omega⟩
  | some k =>
    obtain ⟨hk, hpk, hall⟩ := position_some hb
    show i + 1 ≤ k ↔ _
    constructor
    · intro hle j hj hji
      exact hall j hj (by omega)
    · intro h
      by_contra hc
      have hki : k ≤ i := by omega
      have := h k hk hki
      rw [this] at hpk
      cases hpk

/-- C1: on a captured frame list (sequence numbers are the 1-based positions,
as `print_trace` assigns them), the default filter keeps the frame at
position `i` exactly when no frame at position `i` or later is post-panic and
no frame at position `i` or earlier is runtime-init — i.e. it removes
precisely the span from the start through the last post-panic frame and the
span from the first runtime-init frame through the end, and keeps everything
strictly between. -/
theorem default_filter_cut (frames : List Frame)
    (hn : ∀ i (hi : i < frames.length), (frames.get ⟨i, hi⟩).n = i + 1) :
    ∀ i (hi : i < frames.length),
      (frames.get ⟨i, hi⟩ ∈ default_frame_filter frames ↔
        ((∀ j (hj : j < frames.length), i ≤ j →
            (frames.get ⟨j, hj⟩).is_post_panic_code = false)
          ∧ (∀ j (hj : j < frames.length), j ≤ i →
            (frames.get ⟨j, hj⟩).is_runtime_init_code = false))) := by
  intro i hi
  have hmem : frames.get ⟨i, hi⟩ ∈ frames := frames.get_mem i hi
  have hni : (frames.get ⟨i, hi⟩).n = i + 1 := hn i hi
  simp only [default_frame_filter, List.mem_filter, hmem, true_and, Bool.and_eq_true,
    Nat.ble_eq, hni]
  rw [top_cutoff_le_iff (fun x : Frame => x.is_post_panic_code) frames i,
    bottom_cutoff_ge_iff (fun x : Frame => x.is_runtime_init_code) frames i hi]

/-- C1 witness: in a captured list with post-panic frames at positions 1-2, a
runtime-init frame last, and application frames between, the application
frame `app::inner` (position 3, between the cut points) is kept. -/
theorem default_filter_cut_witness :
    (⟨3, some "app::inner", none, none, 0⟩ : Frame) ∈ default_frame_filter
        [⟨1, some "rust_begin_unwind", none, none, 0⟩,
         ⟨2, some "core::panicking::panic_fmt", none, none, 0⟩,
         ⟨3, some "app::inner", none, none, 0⟩,
         ⟨4, some "app::main_logic", none, none, 0⟩,
         ⟨5, some "std::rt::lang_start::main", none, some "/rustc/xyz/rt.rs", 0⟩] := by
  have h := (default_filter_cut
    [⟨1, some "rust_begin_unwind", none, none, 0⟩,
     ⟨2, some "core::panicking::panic_fmt", none, none, 0⟩,
     ⟨3, some "app::inner", none, none, 0⟩,
     ⟨4, some "app::main_logic", none, none, 0⟩,
     ⟨5, some "std::rt::lang_start::main", none, some "/rustc/xyz/rt.rs", 0⟩]
    (by decide) 2 (by decide)).mpr ⟨by decide, by decide⟩
  exact h

/-- C7: whenever the kept set after filtering is empty, `print_trace` writes
the section header and then the single fixed `<empty backtrace>` placeholder
line — no frames, no banners — and returns successfully (the model is a total
function; the Rust code reaches only infallible writes on this path). -/
theorem empty_trace_notice (show_hidden : Option String) (filters : List FrameFilter)
    (frames : List Frame) (h : computeKept show_hidden filters frames = []) :
    printTrace show_hidden filters frames = [TraceItem.header, TraceItem.emptyNotice] := by
  simp [printTrace, h]

/-- C7 witness: a capture consisting of a single post-panic frame is fully
filtered by the default filter, and rendering it yields exactly the header
and the placeholder. -/
theorem empty_trace_notice_witness :
    printTrace none [default_frame_filter]
        [⟨1, some "rust_begin_unwind", none, none, 0⟩]
      = [TraceItem.header, TraceItem.emptyNotice] :=
  empty_trace_notice none [default_frame_filter]
    [⟨1, some "rust_begin_unwind", none, none, 0⟩] (by decide)

/-- Helper for C2: walking kept sequence numbers that strictly increase from
`last_n`, the banner counts emitted by the frame loop sum (in additive form)
to the distance from `last_n` to the last kept number minus the number of
kept frames. -/
theorem renderKept_hidden_sum {last_n : Nat} {ns : List Nat}
    (hchain : (last_n :: ns).Pairwise (· < ·)) :
    ((renderKept last_n ns).map hiddenCount).sum + ns.length + last_n
      = ns.getLastD last_n := by
  induction ns generalizing last_n with
  | nil => simp [renderKept]
  | cons n rest ih =>
    have hlt : last_n < n := (List.pairwise_cons.mp hchain).1 n (by simp)
    have hchain' : (n :: rest).Pairwise (· < ·) := (List.pairwise_cons.mp hchain).2
    have hrec := ih hchain'
    simp only [renderKept, List.getLastD_cons]
    by_cases hc : n - last_n - 1 ≠ 0
    · rw [if_pos hc]
      simp only [List.map_append, List.map_cons, List.map_nil, List.sum_append,
        List.sum_cons, List.sum_nil, hiddenCount, List.length_cons]
      omega
    · rw [if_neg hc]
      push_neg at hc
      simp only [List.nil_append, List.map_cons, List.sum_cons, hiddenCount,
        List.length_cons]
      omega

/-- C2 (counterexample): the claim quantifies over every frame list and every
filter configuration, but when the filters empty the kept set — which the
default filter itself does on a capture consisting of one post-panic frame —
`print_trace` emits no banner at all, so the banner counts sum to 0 while
total minus kept is 1. -/
theorem trace_banner_sum_counterexample :
    ¬ (((printTrace none [default_frame_filter]
          [⟨1, some "rust_begin_unwind", none, none, 0⟩]).map hiddenCount).sum
        = ([⟨1, some "rust_begin_unwind", none, none, 0⟩] : List Frame).length
          - (computeKept none [default_frame_filter]
              [⟨1, some "rust_begin_unwind", none, none, 0⟩]).length) := by
  decide

/-- C2 (amended): for every captured frame list (sequence numbers 1..N) and
every filter configuration that, per the filter contract, only removes frames
(the kept set is a sublist) and keeps at least one frame, the hidden-frame
counts of the banners emitted by `print_trace` — leading, internal gaps, and
trailing — sum exactly to the total frame count minus the kept frame
count. -/
theorem trace_banner_sum (show_hidden : Option String) (filters : List FrameFilter)
    (frames : List Frame)
    (hn : frames.map Frame.n = List.range' 1 frames.length)
    (hsub : (computeKept show_hidden filters frames).Sublist frames)
    (hne : computeKept show_hidden filters frames ≠ []) :
    ((printTrace show_hidden filters frames).map hiddenCount).sum
      = frames.length - (computeKept show_hidden filters frames).length := by
  have hnsub : ((computeKept show_hidden filters frames).map Frame.n).Sublist
      (List.range' 1 frames.length) := by
    rw [← hn]; exact hsub.map Frame.n
  have hpw : ((computeKept show_hidden filters frames).map Frame.n).Pairwise (· < ·) :=
    List.Pairwise.sublist hnsub (List.pairwise_lt_range' 1 frames.length)
  have hpwf : (computeKept show_hidden filters frames).Pairwise
      (fun a b : Frame => a.n < b.n) := List.pairwise_map.mp hpw
  have hsorted : (computeKept show_hidden filters frames).Pairwise
      (fun a b : Frame => Nat.ble a.n b.n = true) :=
    hpwf.imp (fun h => by simpa [Nat.ble_eq] using Nat.le_of_lt h)
  have hms : (computeKept show_hidden filters frames).mergeSort
      (fun a b => Nat.ble a.n b.n) = computeKept show_hidden filters frames :=
    List.mergeSort_of_sorted hsorted
  have hmem1 : ∀ x ∈ (computeKept show_hidden filters frames).map Frame.n,
      1 ≤ x ∧ x ≤ frames.length := by
    intro x hx
    have := hnsub.mem hx
    obtain ⟨i, hi, rfl⟩ := List.mem_range'.mp this
    omega
  have hchain : (0 :: (computeKept show_hidden filters frames).map Frame.n).Pairwise
      (· < ·) := by
    rw [List.pairwise_cons]
    exact ⟨fun x hx => by have := (hmem1 x hx).1; omega, hpw⟩
  have hsum := renderKept_hidden_sum hchain
  have hlen1 : 1 ≤ frames.length := by
    obtain ⟨f, hf⟩ := List.exists_mem_of_ne_nil _ hne
    have : f ∈ frames := hsub.mem hf
    have := List.length_pos.mpr (List.ne_nil_of_mem this)
    omega
  have hlast : (frames.map Frame.n).getLastD 0 = frames.length := by
    have hgen : ∀ k : Nat, 1 ≤ k → (List.range' 1 k).getLastD 0 = k := by
      intro k hk
      obtain ⟨m, rfl⟩ : ∃ m, k = m + 1 := ⟨k - 1, by omega⟩
      rw [List.range'_1_concat, List.getLastD_concat]
      omega
    rw [hn, hgen frames.length hlen1]
  have hmle : ((computeKept show_hidden filters frames).map Frame.n).getLastD 0
      ≤ frames.length := by
    have hmem := List.getLastD_mem_cons
      ((computeKept show_hidden filters frames).map Frame.n) 0
    rcases List.mem_cons.mp hmem with h0 | hmem'
    · omega
    · exact (hmem1 _ hmem').2
  simp only [printTrace, hms]
  rw [if_neg (by simpa [List.isEmpty_eq_true] using hne)]
  simp only [List.map_cons, List.sum_cons, hiddenCount, List.map_append, List.sum_append,
    hlast]
  by_cases hlt : ((computeKept show_hidden filters frames).map Frame.n).getLastD 0
      < frames.length
  · rw [if_pos hlt]
    simp only [List.map_cons, List.sum_cons, hiddenCount, List.map_nil, List.sum_nil]
    have hklen : ((computeKept show_hidden filters frames).map Frame.n).length
        = (computeKept show_hidden filters frames).length := List.length_map _ _
    omega
  · rw [if_neg hlt]
    simp only [List.map_nil, List.sum_nil]
    have hklen : ((computeKept show_hidden filters frames).map Frame.n).length
        = (computeKept show_hidden filters frames).length := List.length_map _ _
    omega

/-- C2 witness: on a 5-frame capture whose first two frames are post-panic
and whose last is runtime-init, the default filter keeps frames 3 and 4, and
the emitted banners (one leading `2 hidden`, one trailing `1 hidden`) sum to
5 - 2 = 3. -/
theorem trace_banner_sum_witness :
    ((printTrace none [default_frame_filter]
        [⟨1, some "rust_begin_unwind", none, none, 0⟩,
         ⟨2, some "core::panicking::panic_fmt", none, none, 0⟩,
         ⟨3, some "app::inner", none, none, 0⟩,
         ⟨4, some "app::main_logic", none, none, 0⟩,
         ⟨5, some "std::rt::lang_start::main", none, some "/rustc/xyz/rt.rs", 0⟩]).map
        hiddenCount).sum
      = ([⟨1, some "rust_begin_unwind", none, none, 0⟩,
          ⟨2, some "core::panicking::panic_fmt", none, none, 0⟩,
          ⟨3, some "app::inner", none, none, 0⟩,
          ⟨4, some "app::main_logic", none, none, 0⟩,
          ⟨5, some "std::rt::lang_start::main", none, some "/rustc/xyz/rt.rs", 0⟩] :
            List Frame).length
        - (computeKept none [default_frame_filter]
            [⟨1, some "rust_begin_unwind", none, none, 0⟩,
             ⟨2, some "core::panicking::panic_fmt", none, none, 0⟩,
             ⟨3, some "app::inner", none, none, 0⟩,
             ⟨4, some "app::main_logic", none, none, 0⟩,
             ⟨5, some "std::rt::lang_start::main", none, some "/rustc/xyz/rt.rs", 0⟩]).length :=
  trace_banner_sum none [default_frame_filter]
    [⟨1, some "rust_begin_unwind", none, none, 0⟩,
     ⟨2, some "core::panicking::panic_fmt", none, none, 0⟩,
     ⟨3, some "app::inner", none, none, 0⟩,
     ⟨4, some "app::main_logic", none, none, 0⟩,
     ⟨5, some "std::rt::lang_start::main", none, some "/rustc/xyz/rt.rs", 0⟩]
    (by decide) (by decide) (by decide)

end ColorBacktrace
